import Mathlib

/-! easyjson: type selection of the parser package

An embedding of `parser/parser.go`: the pragma predicates `hasPrefix`,
`needType`, `ignoreType`, the visitor `Visit` and the traversal `ast.Walk`
drives over the syntax tree of a compilation unit, followed by the theorems
about which type names end up in `StructNames`. The optional value of
`opt/gotemplate_Uint32.go` and the HTTP helper of `helpers.go` follow the
parser.

Go strings are modelled as `String`; the line-wise functions work on the
character list of the string.
-/

namespace Easyjson

/-! ## Pragma predicates -/

/-- The inclusion pragma, `const structComment`. -/
def structComment : String := "easyjson:json"

/-- The exclusion pragma, `const structIgnoreComment`. -/
def structIgnoreComment : String := "easyjson:ignore"

/-- Go `strings.Split(s, "\n")` on the characters of `s`: the pieces between
the newline characters; a text without newline is its own single piece. -/
def Split : List Char → List (List Char)
  | [] => [[]]
  | c :: cs =>
    if c = '\n' then [] :: Split cs
    else
      match Split cs with
      | [] => [[c]]
      | l :: ls => (c :: l) :: ls

/-- Go `strings.HasPrefix(v, what)`. -/
def HasPrefix : List Char → List Char → Bool
  | _, [] => true
  | [], _ :: _ => false
  | a :: v, b :: what => if a = b then HasPrefix v what else false

/-- The `for _, v := range ...` loop of `hasPrefix`: the first line that
starts with `what` returns true, running off the end returns false. -/
def hasPrefixLoop (what : List Char) : List (List Char) → Bool
  | [] => false
  | v :: rest => if HasPrefix v what then true else hasPrefixLoop what rest

/-- The source function `hasPrefix(comments, what)`. -/
def hasPrefix (comments what : String) : Bool :=
  hasPrefixLoop what.toList (Split comments.toList)

/-- The method `(*Parser).needType`; it does not read its receiver. -/
def needType (comments : String) : Bool :=
  hasPrefix comments structComment

/-- The method `(*Parser).ignoreType`; it does not read its receiver. -/
def ignoreType (comments : String) : Bool :=
  hasPrefix comments structIgnoreComment

/-! ## Syntax tree

The part of `go/ast` the traversal can meet below a package. Children that
are comments, tags or literals of a node other than a declaration group are
left out. A function declaration is a leaf: its signature and body are not
represented.
-/

/-- An `ast.CommentGroup`, represented by the value of its `Text()`. -/
structure CommentGroup where
  text : String
deriving DecidableEq, Repr

/-- The method `(*ast.CommentGroup).Text`, which answers the empty string on
a nil group. -/
def CommentGroup.Text : Option CommentGroup → String
  | none => ""
  | some g => g.text

mutual
/-- Expression nodes (`ast.Expr`), type expressions among them. -/
inductive Expr where
  | Ident (Name : String)
  | ParenExpr (X : Expr)
  | SelectorExpr (X : Expr) (Sel : String)
  | StarExpr (X : Expr)
  | ArrayType (Len : Option Expr) (Elt : Expr)
  | StructType (Fields : List Field)
  | FuncType (Params : List Field) (Results : List Field)
  | InterfaceType (Methods : List Field)
  | MapType (Key : Expr) (Value : Expr)
  | ChanType (Value : Expr)
  | OtherExpr (children : List Expr)
/-- An `ast.Field` of a field list: its names and its type. -/
inductive Field where
  | mk (Names : List String) (Typ : Expr)
end

/-- Specifications of a declaration group (`ast.Spec`). -/
inductive Spec where
  | ImportSpec (Path : String)
  | ValueSpec (Names : List String) (Typ : Option Expr) (Values : List Expr)
  | TypeSpec (Name : String) (Typ : Expr)

/-- Top-level declarations (`ast.Decl`). -/
inductive Decl where
  | BadDecl
  | GenDecl (Doc : Option CommentGroup) (Specs : List Spec)
  | FuncDecl (Name : String)

/-- A compilation unit (`ast.File`). -/
structure File where
  Name : String
  Decls : List Decl

/-- An `ast.Package`; `Files` lists the files in the order in which the
range over the map of files yields them. -/
structure Package where
  Name : String
  Files : List File

/-- An `ast.Node` as the type switch of `Visit` sees it. `nil` is the nil
node `ast.Walk` passes after the children of a node. -/
inductive Node where
  | nil
  | commentGroup (n : CommentGroup)
  | field (n : Field)
  | fieldList (n : List Field)
  | expr (n : Expr)
  | spec (n : Spec)
  | decl (n : Decl)
  | file (n : File)
  | package (n : Package)

/-! ## The visitor -/

/-- The accumulator, `type Parser struct`. -/
structure Parser where
  PkgPath : String
  PkgName : String
  StructNames : List String
  AllStructs : Bool
deriving DecidableEq, Repr

/-- The traversal state, `type visitor struct`: the shared `*Parser` and the
scratch fields `name` and `explicit`. -/
structure visitor extends Parser where
  name : String
  explicit : Bool
deriving DecidableEq, Repr

/-- The method `(*visitor).Visit`. The first component is the receiver after
the call; the second is true when the method returns the receiver itself
and false when it returns nil. -/
def Visit (v : visitor) : Node → visitor × Bool
  | .package _ => (v, true)
  | .file n => ({ v with PkgName := n.Name }, true)
  | .decl (.GenDecl Doc _) =>
    let text := CommentGroup.Text Doc
    let v := { v with explicit := needType text }
    let ignore := ignoreType text
    if (!v.explicit && !v.AllStructs) || (v.AllStructs && ignore) then
      (v, false)
    else
      (v, true)
  | .spec (.TypeSpec Name _) =>
    let v := { v with name := Name }
    if v.explicit then
      ({ v with StructNames := v.StructNames ++ [v.name] }, false)
    else
      (v, true)
  | .expr (.StructType _) =>
    ({ v with StructNames := v.StructNames ++ [v.name] }, false)
  | _ => (v, false)

/-! ## The traversal `ast.Walk` -/

/-- The frame of `ast.Walk(v, node)`: call `Visit(node)`; on nil return;
otherwise walk the children with the returned visitor and call
`Visit(nil)`. -/
def walkNode (v : visitor) (n : Node) (children : visitor → visitor) : visitor :=
  match Visit v n with
  | (v1, false) => v1
  | (v1, true) => (Visit (children v1) Node.nil).1

/-- The helper `walkIdentList` of `go/ast`. -/
def walkIdentList (v : visitor) : List String → visitor
  | [] => v
  | x :: xs => walkIdentList (walkNode v (.expr (.Ident x)) id) xs

mutual
/-- The expression cases of `ast.Walk`; a field list below an expression is
walked by the frame of the case `*ast.FieldList` around `walkFields`. -/
def walkExpr (v : visitor) : Expr → visitor
  | .Ident Name => walkNode v (.expr (.Ident Name)) id
  | .ParenExpr X => walkNode v (.expr (.ParenExpr X)) (fun v => walkExpr v X)
  | .SelectorExpr X Sel =>
    walkNode v (.expr (.SelectorExpr X Sel))
      (fun v => walkNode (walkExpr v X) (.expr (.Ident Sel)) id)
  | .StarExpr X => walkNode v (.expr (.StarExpr X)) (fun v => walkExpr v X)
  | .ArrayType none Elt =>
    walkNode v (.expr (.ArrayType none Elt)) (fun v => walkExpr v Elt)
  | .ArrayType (some Len) Elt =>
    walkNode v (.expr (.ArrayType (some Len) Elt))
      (fun v => walkExpr (walkExpr v Len) Elt)
  | .StructType Fields =>
    walkNode v (.expr (.StructType Fields))
      (fun v => walkNode v (.fieldList Fields) (fun v => walkFields v Fields))
  | .FuncType Params Results =>
    walkNode v (.expr (.FuncType Params Results))
      (fun v => walkNode (walkNode v (.fieldList Params) (fun v => walkFields v Params))
        (.fieldList Results) (fun v => walkFields v Results))
  | .InterfaceType Methods =>
    walkNode v (.expr (.InterfaceType Methods))
      (fun v => walkNode v (.fieldList Methods) (fun v => walkFields v Methods))
  | .MapType Key Value =>
    walkNode v (.expr (.MapType Key Value)) (fun v => walkExpr (walkExpr v Key) Value)
  | .ChanType Value => walkNode v (.expr (.ChanType Value)) (fun v => walkExpr v Value)
  | .OtherExpr children =>
    walkNode v (.expr (.OtherExpr children)) (fun v => walkExprList v children)
/-- The case `*ast.Field` of `ast.Walk`. -/
def walkField (v : visitor) : Field → visitor
  | .mk Names Typ =>
    walkNode v (.field (.mk Names Typ)) (fun v => walkExpr (walkIdentList v Names) Typ)
/-- The loop `for _, f := range n.List` over the fields of a field list. -/
def walkFields (v : visitor) : List Field → visitor
  | [] => v
  | f :: fs => walkFields (walkField v f) fs
/-- The helper `walkExprList` of `go/ast`. -/
def walkExprList (v : visitor) : List Expr → visitor
  | [] => v
  | x :: xs => walkExprList (walkExpr v x) xs
end

/-- The case `*ast.FieldList` of `ast.Walk`. -/
def walkFieldList (v : visitor) (fs : List Field) : visitor :=
  walkNode v (.fieldList fs) (fun v => walkFields v fs)

/-- The case `*ast.CommentGroup` of `ast.Walk`; the single comments below
it are not represented. -/
def walkCommentGroup (v : visitor) (g : CommentGroup) : visitor :=
  walkNode v (.commentGroup g) id

/-- A child that `ast.Walk` walks only when it is not nil. -/
def walkOpt {α : Type} (walk : visitor → α → visitor) (v : visitor) : Option α → visitor
  | none => v
  | some x => walk v x

/-- The spec cases of `ast.Walk`. -/
def walkSpec (v : visitor) : Spec → visitor
  | .ImportSpec Path => walkNode v (.spec (.ImportSpec Path)) id
  | .ValueSpec Names Typ Values =>
    walkNode v (.spec (.ValueSpec Names Typ Values))
      (fun v => walkExprList (walkOpt walkExpr (walkIdentList v Names) Typ) Values)
  | .TypeSpec Name Typ =>
    walkNode v (.spec (.TypeSpec Name Typ))
      (fun v => walkExpr (walkNode v (.expr (.Ident Name)) id) Typ)

/-- The loop `for _, s := range n.Specs` of the case `*ast.GenDecl`. -/
def walkSpecs (v : visitor) : List Spec → visitor
  | [] => v
  | s :: ss => walkSpecs (walkSpec v s) ss

/-- The declaration cases of `ast.Walk`. -/
def walkDecl (v : visitor) : Decl → visitor
  | .BadDecl => walkNode v (.decl .BadDecl) id
  | .GenDecl Doc Specs =>
    walkNode v (.decl (.GenDecl Doc Specs))
      (fun v => walkSpecs (walkOpt walkCommentGroup v Doc) Specs)
  | .FuncDecl Name => walkNode v (.decl (.FuncDecl Name)) id

/-- The helper `walkDeclList` of `go/ast`. -/
def walkDeclList (v : visitor) : List Decl → visitor
  | [] => v
  | d :: ds => walkDeclList (walkDecl v d) ds

/-- The case `*ast.File` of `ast.Walk`. -/
def walkFile (v : visitor) (f : File) : visitor :=
  walkNode v (.file f)
    (fun v => walkDeclList (walkNode v (.expr (.Ident f.Name)) id) f.Decls)

/-- The loop `for _, f := range n.Files` of the case `*ast.Package`. -/
def walkFiles (v : visitor) : List File → visitor
  | [] => v
  | f :: fs => walkFiles (walkFile v f) fs

/-- The case `*ast.Package` of `ast.Walk`. -/
def walkPackage (v : visitor) (p : Package) : visitor :=
  walkNode v (.package p) (fun v => walkFiles v p.Files)

/-- The function `ast.Walk(v, node)`; the result is the visitor state when
the walk returns. -/
def Walk (v : visitor) : Node → visitor
  | .nil => walkNode v .nil id
  | .commentGroup g => walkCommentGroup v g
  | .field f => walkField v f
  | .fieldList fs => walkFieldList v fs
  | .expr e => walkExpr v e
  | .spec s => walkSpec v s
  | .decl d => walkDecl v d
  | .file f => walkFile v f
  | .package p => walkPackage v p

/-! ## Parse -/

/-- The visitor `&visitor{Parser: p}` that `Parse` hands to `ast.Walk`. -/
def newVisitor (p : Parser) : visitor :=
  { toParser := p, name := "", explicit := false }

/-- The loop `for _, pckg := range packages` of `Parse`: every package is
walked with a new visitor over the same `Parser`. -/
def walkPackages (p : Parser) : List Package → Parser
  | [] => p
  | pckg :: rest => walkPackages (Walk (newVisitor p) (.package pckg)).toParser rest

/-- The method `(*Parser).Parse`. The results of the calls outside this
file are parameters: `pkgPath` is what `getPkgPath` returned, `dir` what
`parser.ParseDir` returned (the packages in the order the range over the map
yields them) and `file` what `parser.ParseFile` returned. The result is the
`Parser` after the call and the returned error. -/
def Parse (pkgPath : String × Option String) (dir : Except String (List Package))
    (file : Except String File) (p : Parser) (isDir : Bool) : Parser × Option String :=
  let p := { p with PkgPath := pkgPath.1 }
  match pkgPath.2 with
  | some err => (p, some err)
  | none =>
    if isDir then
      match dir with
      | .error err => (p, some err)
      | .ok packages => (walkPackages p packages, none)
    else
      match file with
      | .error err => (p, some err)
      | .ok f => ((Walk (newVisitor p) (.file f)).toParser, none)

/-! ## Reference functions for the statements -/

/-- The parser state with which a run starts: nothing selected yet. -/
def freshParser (allStructs : Bool) : Parser :=
  { PkgPath := "", PkgName := "", StructNames := [], AllStructs := allStructs }

/-- The names selected by walking the file `f` alone, from a fresh
accumulator with mode flag `m`. -/
def sel (m : Bool) (f : File) : List String :=
  (Walk (newVisitor (freshParser m)) (.file f)).StructNames

/-- The names of the type declarations of a list of specs, in order. -/
def typeNames : List Spec → List String
  | [] => []
  | .TypeSpec Name _ :: ss => Name :: typeNames ss
  | _ :: ss => typeNames ss

/-- The names of the type declarations whose type expression is itself a
struct type, in order. -/
def structTypeNames : List Spec → List String
  | [] => []
  | .TypeSpec Name (.StructType _) :: ss => Name :: structTypeNames ss
  | _ :: ss => structTypeNames ss

/-- The names of the type declarations of a declaration. -/
def declTypeNames : Decl → List String
  | .GenDecl _ Specs => typeNames Specs
  | _ => []

/-- The names of the type declarations of a file, group by group. -/
def fileTypeNames (f : File) : List String :=
  (f.Decls.map declTypeNames).flatten

/-- The names a declaration contributes under mode flag `m`, read off the
group-level rule: an explicit group gives all its type names, a group that
is admitted without being explicit gives the names of its struct types, a
group that is not admitted and any other declaration give nothing. -/
def declSel (m : Bool) : Decl → List String
  | .GenDecl Doc Specs =>
    if needType (CommentGroup.Text Doc) then
      if m && ignoreType (CommentGroup.Text Doc) then [] else typeNames Specs
    else
      if m && !ignoreType (CommentGroup.Text Doc) then structTypeNames Specs else []
  | _ => []

/-- The scratch name after walking a list of specs: the name of the last
type declaration, or the name before when there is none. -/
def lastTypeName (name : String) : List Spec → String
  | [] => name
  | .TypeSpec Name _ :: ss => lastTypeName Name ss
  | _ :: ss => lastTypeName name ss

/-- The nodes for which the type switch of `Visit` has a case: a package, a
file, a declaration group, a type declaration and a struct type. -/
def recognised : Node → Bool
  | .package _ => true
  | .file _ => true
  | .decl (.GenDecl _ _) => true
  | .spec (.TypeSpec _ _) => true
  | .expr (.StructType _) => true
  | _ => false

/-- The names one call of `Visit` appends to `StructNames`: the name of a
type declaration when the group is explicit, the scratch name at a struct
type, nothing elsewhere. -/
def visitAdds (v : visitor) : Node → List String
  | .spec (.TypeSpec Name _) => if v.explicit then [Name] else []
  | .expr (.StructType _) => [v.name]
  | _ => []

/-- The names in the order in which a walk of the packages meets their
files. -/
def unitNames (pkgs : List Package) : List String :=
  (pkgs.map Package.Files).flatten.map File.Name

/-! ## Optional values (`opt/gotemplate_Uint32.go`)

The packages `jwriter` and `jlexer` are not among the sources at hand; what
the optional value calls on a writer and on a lexer is a parameter. Bytes
and `uint32` values are natural numbers.
-/

/-- The optional value, `type Uint32 struct`. -/
structure Uint32 where
  V : Nat
  Defined : Bool
deriving DecidableEq, Repr

/-- The calls on a `jwriter.Writer`: the literal `jwriter.Writer{}`, the
methods `Uint32` and `RawString`, `w.Buffer.BuildBytes()` and the field
`Error`. -/
structure WriterOps (W E : Type) where
  zero : W
  Uint32 : W → Nat → W
  RawString : W → String → W
  BuildBytes : W → List Nat
  Error : W → Option E

/-- The calls on a `jlexer.Lexer`: the literal `jlexer.Lexer{}`, the literal
`jlexer.Lexer{Data: data}`, and the methods `IsNull`, `Skip`, `Uint32` and
`Error`; a method that advances the lexer also answers the lexer after the
call. -/
structure LexerOps (L E : Type) where
  zero : L
  withData : List Nat → L
  IsNull : L → Bool × L
  Skip : L → L
  Uint32 : L → Nat × L
  Error : L → Option E

/-- The constructor `OUint32`. -/
def OUint32 (v : Nat) : Uint32 :=
  { V := v, Defined := true }

/-- The method `Uint32.Get`. -/
def Uint32.Get (v : Uint32) (deflt : Nat) : Nat :=
  if !v.Defined then deflt else v.V

/-- The method `Uint32.IsDefined`. -/
def Uint32.IsDefined (v : Uint32) : Bool :=
  v.Defined

/-- The method `Uint32.MarshalEasyJSON`; the result is the writer after the
call. -/
def Uint32.MarshalEasyJSON {W E : Type} (ops : WriterOps W E) (v : Uint32) (w : W) : W :=
  if v.Defined then ops.Uint32 w v.V else ops.RawString w "null"

/-- The method `(*Uint32).UnmarshalEasyJSON`; the result is the receiver
and the lexer after the call. -/
def Uint32.UnmarshalEasyJSON {L E : Type} (ops : LexerOps L E) (v : Uint32) (l : L) :
    Uint32 × L :=
  match ops.IsNull l with
  | (true, l) => ({ V := 0, Defined := false }, ops.Skip l)
  | (false, l) =>
    match ops.Uint32 l with
    | (x, l) => ({ v with V := x, Defined := true }, l)

/-- The method `(*Uint32).MarshalJSON`. -/
def Uint32.MarshalJSON {W E : Type} (ops : WriterOps W E) (v : Uint32) :
    List Nat × Option E :=
  let w := ops.zero
  let w := v.MarshalEasyJSON ops w
  (ops.BuildBytes w, ops.Error w)

/-- The method `(*Uint32).UnmarshalJSON`: the lexer is `jlexer.Lexer{}`, the
argument `data` is not handed to it. The result is the receiver after the
call and the returned error. -/
def Uint32.UnmarshalJSON {L E : Type} (ops : LexerOps L E) (v : Uint32) (data : List Nat) :
    Uint32 × Option E :=
  let l := ops.zero
  match v.UnmarshalEasyJSON ops l with
  | (v, l) => (v, ops.Error l)

/-! ## Marshalling to an HTTP response (`helpers.go`)

The writer of package `jwriter` and the `http.ResponseWriter` are
parameters.
-/

/-- The calls of `MarshalToHTTPResponseWriterCustom` on its collaborators:
the literal `jwriter.Writer{Flags: jwriter.NilSliceAsEmpty}`, the field
`Error`, the methods `Size` and `DumpTo` of the writer, and
`w.Header().Set(key, value)` on the response writer; `DumpTo` and `Set`
answer the response writer after the call. -/
structure ResponseOps (W R E : Type) where
  nilSliceAsEmpty : W
  Error : W → Option E
  Size : W → Int
  DumpTo : W → R → R × Int × Option E
  HeaderSet : R → String → String → R

/-- Go `strconv.Itoa`: the decimal text of an integer. -/
def Itoa (i : Int) : String :=
  toString i

/-- The function `MarshalToHTTPResponseWriterCustom`; `v` is the method
`MarshalEasyJSON` of the marshaler. The result is the response writer after
the call and the values `started`, `written` and `err`. -/
def MarshalToHTTPResponseWriterCustom {W R E : Type} (ops : ResponseOps W R E)
    (v : W → String → W) (w : R) (usingTagName : String) : R × Bool × Int × Option E :=
  let jw := ops.nilSliceAsEmpty
  let jw := v jw usingTagName
  match ops.Error jw with
  | some err => (w, false, 0, some err)
  | none =>
    let w := ops.HeaderSet w "Content-Type" "application/json"
    let w := ops.HeaderSet w "Content-Length" (Itoa (ops.Size jw))
    let started := true
    match ops.DumpTo jw w with
    | (w, written, err) => (w, started, written, err)

/-- The function `MarshalToHTTPResponseWriter`. -/
def MarshalToHTTPResponseWriter {W R E : Type} (ops : ResponseOps W R E)
    (v : W → String → W) (w : R) : R × Bool × Int × Option E :=
  MarshalToHTTPResponseWriterCustom ops v w "json"

/-! ## Example inputs -/

/-- The declaration `type Point struct { X, Y int; In struct { Z int } }`
without documentation. -/
def declPoint : Decl :=
  .GenDecl none
    [.TypeSpec "Point" (.StructType
      [.mk ["X", "Y"] (.Ident "int"), .mk ["In"] (.StructType [.mk ["Z"] (.Ident "int")])])]

/-- The specs `ID int` and `User struct { ID ID }` of one group. -/
def specsExplicit : List Spec :=
  [.TypeSpec "ID" (.Ident "int"), .TypeSpec "User" (.StructType [.mk ["ID"] (.Ident "ID")])]

/-- The documentation `// ID is an identifier` and `// easyjson:json`. -/
def docJson : Option CommentGroup := some ⟨"ID is an identifier\neasyjson:json\n"⟩

/-- The documentation `// easyjson:json` and `// easyjson:ignore`. -/
def docBoth : Option CommentGroup := some ⟨"easyjson:json\neasyjson:ignore\n"⟩

/-- The documentation `// Shapes of the plane.`, without pragma. -/
def docPlain : Option CommentGroup := some ⟨"Shapes of the plane.\n"⟩

/-- The spec `Secret struct { K string }`. -/
def specsSecret : List Spec :=
  [.TypeSpec "Secret" (.StructType [.mk ["K"] (.Ident "string")])]

/-- The specs of a group that mixes shapes: a struct with a nested anonymous
struct, a pointer to a struct, a slice of structs, a map, a parenthesised
struct, a variable of struct type and an empty struct. -/
def specsMixed : List Spec :=
  [.TypeSpec "Line" (.StructType
      [.mk ["A", "B"] (.StructType [.mk ["X", "Y"] (.Ident "int")])]),
   .TypeSpec "Ref" (.StarExpr (.StructType [.mk ["X"] (.Ident "int")])),
   .TypeSpec "Many" (.ArrayType none (.StructType [])),
   .TypeSpec "Index" (.MapType (.Ident "string") (.Ident "int")),
   .TypeSpec "Wrapped" (.ParenExpr (.StructType [])),
   .ValueSpec ["origin"] (some (.StructType [])) [],
   .TypeSpec "Empty" (.StructType [])]

/-- The unit with `type ID int` under both pragmas as its only group. -/
def unitBoth : File :=
  { Name := "main", Decls := [.GenDecl docBoth [.TypeSpec "ID" (.Ident "int")]] }

/-- A unit with an undocumented struct, an explicit group and a function. -/
def unitExplicit : File :=
  { Name := "main", Decls := [declPoint, .GenDecl docJson specsExplicit, .FuncDecl "main"] }

/-- A unit with an explicit group, a group under both pragmas and an
undocumented struct. -/
def unitIgnored : File :=
  { Name := "main", Decls := [.GenDecl docJson specsExplicit, .GenDecl docBoth specsSecret,
      declPoint] }

/-- A unit with an explicit group, a plainly documented group of mixed
shapes and an undocumented struct. -/
def unitMixed : File :=
  { Name := "shapes", Decls := [.GenDecl docJson specsExplicit, .GenDecl docPlain specsMixed,
      declPoint] }

/-- A second unit that declares `Point` again. -/
def unitAgain : File :=
  { Name := "other", Decls := [declPoint] }

/-- A visitor in the middle of a walk: one name collected, scratch state
left by an explicit group. -/
def visitorMidway (allStructs : Bool) : visitor :=
  { PkgPath := "example.com/shapes", PkgName := "shapes", StructNames := ["Earlier"],
    AllStructs := allStructs, name := "Earlier", explicit := true }

/-- A unit of package `shapes`: an explicit group and an undocumented
struct. -/
def unitShapes : File :=
  { Name := "shapes", Decls := [.GenDecl docJson specsExplicit, declPoint] }

/-- A package `shapes` with the single file `unitShapes`. -/
def pkgShapes : Package :=
  { Name := "shapes", Files := [unitShapes] }

/-- A package `other` with the single file `unitAgain`. -/
def pkgOther : Package :=
  { Name := "other", Files := [unitAgain] }

/-- A response writer that records the calls made on it. -/
def recordingOps : ResponseOps (Option String × Int) (List String) String :=
  { nilSliceAsEmpty := (none, 0),
    Error := fun jw => jw.1,
    Size := fun jw => jw.2,
    DumpTo := fun jw w => (w ++ ["Write"], jw.2, none),
    HeaderSet := fun w key value => w ++ [key ++ ": " ++ value] }

end Easyjson

/-! # Theorems -/

namespace Easyjson

/-! ## Lines and prefixes -/

theorem Split_ne_nil (l : List Char) : Split l ≠ [] := by
  cases l with
  | nil => simp [Split]
  | cons c cs =>
    unfold Split
    split
    · simp
    · split <;> simp

theorem Split_eq_splitOn (l : List Char) : Split l = l.splitOn '\n' := by
  induction l with
  | nil => simp [Split, List.splitOn, List.splitOnP_nil]
  | cons c cs ih =>
    have hne := Split_ne_nil cs
    unfold Split
    rw [List.splitOn, List.splitOnP_cons]
    rw [List.splitOn] at ih
    by_cases hc : c = '\n'
    · simp [hc, ← ih]
    · have hb : (c == '\n') = false := by simpa using hc
      simp only [hc, hb, if_false]
      rw [← ih]
      cases h : Split cs with
      | nil => exact absurd h hne
      | cons x xs => simp [List.modifyHead]

theorem HasPrefix_iff (v what : List Char) : HasPrefix v what = true ↔ what <+: v := by
  induction what generalizing v with
  | nil => cases v <;> simp [HasPrefix]
  | cons b what ih =>
    cases v with
    | nil => simp [HasPrefix]
    | cons a v =>
      simp only [HasPrefix, List.cons_prefix_cons]
      by_cases hab : a = b
      · simp [hab, ih]
      · have hba : ¬ b = a := fun h => hab h.symm
        simp [hab, hba]

theorem hasPrefixLoop_iff (what : List Char) (ls : List (List Char)) :
    hasPrefixLoop what ls = true ↔ ∃ l ∈ ls, what <+: l := by
  induction ls with
  | nil => simp [hasPrefixLoop]
  | cons v rest ih =>
    simp only [hasPrefixLoop, List.mem_cons, exists_eq_or_imp]
    by_cases hv : HasPrefix v what = true
    · simp [hv, (HasPrefix_iff v what).1 hv]
    · have hnp : ¬ what <+: v := fun h => hv ((HasPrefix_iff v what).2 h)
      simp [hv, hnp, ih]

theorem hasPrefix_iff (comments what : String) :
    hasPrefix comments what = true ↔
      ∃ l ∈ comments.toList.splitOn '\n', what.toList <+: l := by
  unfold hasPrefix
  rw [hasPrefixLoop_iff, Split_eq_splitOn]

theorem Split_of_no_newline (l : List Char) (h : '\n' ∉ l) : Split l = [l] := by
  induction l with
  | nil => simp [Split]
  | cons c cs ih =>
    have hc : c ≠ '\n' := fun e => h (by simp [e])
    have hcs : '\n' ∉ cs := fun e => h (by simp [e])
    unfold Split
    simp [hc, ih hcs]

end Easyjson

namespace Easyjson

/-! ## What a walk does to the visitor -/

theorem walkNode_skip (v v1 : visitor) (n : Node) (c : visitor → visitor)
    (h : Visit v n = (v1, false)) : walkNode v n c = v1 := by
  simp [walkNode, h]

theorem walkNode_descend (v v1 : visitor) (n : Node) (c : visitor → visitor)
    (h : Visit v n = (v1, true)) : walkNode v n c = c v1 := by
  unfold walkNode
  rw [h]
  rfl

theorem walkIdentList_eq (v : visitor) (xs : List String) : walkIdentList v xs = v := by
  induction xs generalizing v with
  | nil => rfl
  | cons x xs ih =>
    rw [walkIdentList, walkNode_skip v v (.expr (.Ident x)) id rfl, ih]

/-- An expression that is a struct type adds the scratch name and is not
entered; every other expression leaves the visitor as it was. -/
theorem walkExpr_eq (v : visitor) (e : Expr) :
    walkExpr v e =
      match e with
      | .StructType _ => { v with StructNames := v.StructNames ++ [v.name] }
      | _ => v := by
  cases e with
  | ArrayType Len Elt => cases Len <;> simp [walkExpr, walkNode, Visit]
  | _ => simp [walkExpr, walkNode, Visit]

theorem walkSpec_TypeSpec_explicit (v : visitor) (Name : String) (Typ : Expr)
    (h : v.explicit = true) :
    walkSpec v (.TypeSpec Name Typ) =
      { v with name := Name, StructNames := v.StructNames ++ [Name] } := by
  simp [walkSpec, walkNode, Visit, h]

theorem walkSpec_TypeSpec_pending (v : visitor) (Name : String) (Typ : Expr)
    (h : v.explicit = false) :
    walkSpec v (.TypeSpec Name Typ) = walkExpr { v with name := Name } Typ := by
  simp [walkSpec, walkNode, Visit, h]

theorem walkSpec_ImportSpec (v : visitor) (Path : String) :
    walkSpec v (.ImportSpec Path) = v := by
  simp [walkSpec, walkNode, Visit]

theorem walkSpec_ValueSpec (v : visitor) (Names : List String) (Typ : Option Expr)
    (Values : List Expr) : walkSpec v (.ValueSpec Names Typ Values) = v := by
  simp [walkSpec, walkNode, Visit]

/-- The state after the specs of an admitted group. -/
theorem walkSpecs_eq (v : visitor) (ss : List Spec) :
    walkSpecs v ss =
      { v with
        name := lastTypeName v.name ss,
        StructNames :=
          v.StructNames ++ (if v.explicit then typeNames ss else structTypeNames ss) } := by
  induction ss generalizing v with
  | nil => simp [walkSpecs, lastTypeName, typeNames, structTypeNames]
  | cons s ss ih =>
    rw [walkSpecs, ih]
    cases s with
    | ImportSpec Path =>
      simp [walkSpec_ImportSpec, lastTypeName, typeNames, structTypeNames]
    | ValueSpec Names Typ Values =>
      simp [walkSpec_ValueSpec, lastTypeName, typeNames, structTypeNames]
    | TypeSpec Name Typ =>
      cases he : v.explicit with
      | true =>
        simp [walkSpec_TypeSpec_explicit v Name Typ he, lastTypeName, typeNames, he]
      | false =>
        rw [walkSpec_TypeSpec_pending v Name Typ he, walkExpr_eq]
        cases Typ <;> simp [lastTypeName, structTypeNames, he]

/-- The state after a declaration. -/
theorem walkDecl_eq (v : visitor) (d : Decl) :
    walkDecl v d =
      match d with
      | .GenDecl Doc Specs =>
        if (!needType (CommentGroup.Text Doc) && !v.AllStructs)
            || (v.AllStructs && ignoreType (CommentGroup.Text Doc)) then
          { v with explicit := needType (CommentGroup.Text Doc) }
        else
          { v with
            explicit := needType (CommentGroup.Text Doc),
            name := lastTypeName v.name Specs,
            StructNames := v.StructNames ++ declSel v.AllStructs (.GenDecl Doc Specs) }
      | _ => v := by
  cases d with
  | BadDecl => simp [walkDecl, walkNode, Visit]
  | FuncDecl Name => simp [walkDecl, walkNode, Visit]
  | GenDecl Doc Specs =>
    have hdoc : ∀ w : visitor, walkOpt walkCommentGroup w Doc = w := by
      intro w
      cases Doc <;> simp [walkOpt, walkCommentGroup, walkNode, Visit]
    simp only [walkDecl, walkNode, Visit]
    cases hn : needType (CommentGroup.Text Doc) <;>
      cases hi : ignoreType (CommentGroup.Text Doc) <;>
      cases hm : v.AllStructs <;>
      simp [hdoc, walkSpecs_eq, declSel, hn, hi, hm]

theorem walkDecl_StructNames (v : visitor) (d : Decl) :
    (walkDecl v d).StructNames = v.StructNames ++ declSel v.AllStructs d := by
  rw [walkDecl_eq]
  cases d with
  | BadDecl => simp [declSel]
  | FuncDecl Name => simp [declSel]
  | GenDecl Doc Specs =>
    simp only
    split
    · rename_i h
      cases hn : needType (CommentGroup.Text Doc) <;>
        cases hi : ignoreType (CommentGroup.Text Doc) <;>
        cases hm : v.AllStructs <;>
        simp_all [declSel]
    · rfl

theorem walkDecl_frame (v : visitor) (d : Decl) :
    (walkDecl v d).AllStructs = v.AllStructs ∧ (walkDecl v d).PkgName = v.PkgName ∧
      (walkDecl v d).PkgPath = v.PkgPath := by
  rw [walkDecl_eq]
  cases d with
  | BadDecl => simp
  | FuncDecl Name => simp
  | GenDecl Doc Specs =>
    simp only
    split <;> simp

/-- The names selected from a list of declarations under mode flag `m`. -/
theorem walkDeclList_StructNames (v : visitor) (ds : List Decl) :
    (walkDeclList v ds).StructNames =
      v.StructNames ++ (ds.map (declSel v.AllStructs)).flatten := by
  induction ds generalizing v with
  | nil => simp [walkDeclList]
  | cons d ds ih =>
    rw [walkDeclList, ih, walkDecl_StructNames, (walkDecl_frame v d).1]
    simp

theorem walkDeclList_frame (v : visitor) (ds : List Decl) :
    (walkDeclList v ds).AllStructs = v.AllStructs ∧
      (walkDeclList v ds).PkgName = v.PkgName ∧
      (walkDeclList v ds).PkgPath = v.PkgPath := by
  induction ds generalizing v with
  | nil => simp [walkDeclList]
  | cons d ds ih =>
    rw [walkDeclList]
    obtain ⟨h1, h2, h3⟩ := ih (walkDecl v d)
    obtain ⟨g1, g2, g3⟩ := walkDecl_frame v d
    exact ⟨h1.trans g1, h2.trans g2, h3.trans g3⟩

theorem walkFile_eq (v : visitor) (f : File) :
    walkFile v f = walkDeclList { v with PkgName := f.Name } f.Decls := by
  simp [walkFile, walkNode, Visit]

theorem walkFile_StructNames (v : visitor) (f : File) :
    (walkFile v f).StructNames =
      v.StructNames ++ (f.Decls.map (declSel v.AllStructs)).flatten := by
  rw [walkFile_eq, walkDeclList_StructNames]

theorem walkFile_frame (v : visitor) (f : File) :
    (walkFile v f).AllStructs = v.AllStructs ∧ (walkFile v f).PkgName = f.Name ∧
      (walkFile v f).PkgPath = v.PkgPath := by
  rw [walkFile_eq]
  exact walkDeclList_frame _ _

theorem sel_eq (m : Bool) (f : File) : sel m f = (f.Decls.map (declSel m)).flatten := by
  simp [sel, Walk, walkFile_StructNames, newVisitor, freshParser]

theorem walkFile_names (v : visitor) (f : File) :
    (Walk v (.file f)).StructNames = v.StructNames ++ sel v.AllStructs f := by
  rw [sel_eq]
  exact walkFile_StructNames v f

theorem walkFiles_StructNames (v : visitor) (fs : List File) :
    (walkFiles v fs).StructNames = v.StructNames ++ (fs.map (sel v.AllStructs)).flatten := by
  induction fs generalizing v with
  | nil => simp [walkFiles]
  | cons f fs ih =>
    rw [walkFiles, ih, (walkFile_frame v f).1]
    have := walkFile_names v f
    simp only [Walk] at this
    rw [this]
    simp

theorem walkFiles_AllStructs (v : visitor) (fs : List File) :
    (walkFiles v fs).AllStructs = v.AllStructs := by
  induction fs generalizing v with
  | nil => simp [walkFiles]
  | cons f fs ih => rw [walkFiles, ih, (walkFile_frame v f).1]

theorem walkPackage_eq (v : visitor) (p : Package) :
    walkPackage v p = walkFiles v p.Files := by
  simp [walkPackage, walkNode, Visit]

theorem structTypeNames_sublist (ss : List Spec) :
    (structTypeNames ss).Sublist (typeNames ss) := by
  induction ss with
  | nil => simp [structTypeNames, typeNames]
  | cons s ss ih =>
    cases s with
    | ImportSpec Path => simpa [structTypeNames, typeNames] using ih
    | ValueSpec Names Typ Values => simpa [structTypeNames, typeNames] using ih
    | TypeSpec Name Typ =>
      cases Typ <;> simp [structTypeNames, typeNames, ih, List.Sublist.cons]

theorem declSel_sublist (m : Bool) (d : Decl) : (declSel m d).Sublist (declTypeNames d) := by
  cases d with
  | BadDecl => simp [declSel, declTypeNames]
  | FuncDecl Name => simp [declSel, declTypeNames]
  | GenDecl Doc Specs =>
    simp only [declSel, declTypeNames]
    split <;> split <;> simp [structTypeNames_sublist]

theorem sel_sublist (m : Bool) (f : File) : (sel m f).Sublist (fileTypeNames f) := by
  rw [sel_eq, fileTypeNames]
  induction f.Decls with
  | nil => simp
  | cons d ds ih =>
    simp only [List.map_cons, List.flatten_cons]
    exact (declSel_sublist m d).append ih

end Easyjson

namespace Easyjson

/-! ## The pragma predicates -/

/-- C1: for every documentation text `d`, `needType d` is true exactly when
one of the lines of `d` (the pieces between its newline characters) starts
with the literal "easyjson:json", `ignoreType d` is true exactly when one of
them starts with the literal "easyjson:ignore", and both are false for the
empty text. -/
theorem needType_ignoreType_lines (d : String) :
    (needType d = true ↔
        ∃ l ∈ d.toList.splitOn '\n', "easyjson:json".toList <+: l) ∧
      (ignoreType d = true ↔
        ∃ l ∈ d.toList.splitOn '\n', "easyjson:ignore".toList <+: l) ∧
      needType "" = false ∧ ignoreType "" = false :=
  ⟨hasPrefix_iff d structComment, hasPrefix_iff d structIgnoreComment, by decide, by decide⟩

/-- C2: at a declaration group with documentation text `d`, `Visit` returns
nil exactly when (`AllStructs` is false and `needType d` is false) or
(`AllStructs` is true and `ignoreType d` is true); whatever it returns, the
receiver afterwards is the receiver before with `explicit` set to
`needType d`. Equivalently the group is admitted iff it is explicit when
`AllStructs` is false, and iff it is not ignored when `AllStructs` is
true. -/
theorem Visit_GenDecl_admission (v : visitor) (Doc : Option CommentGroup)
    (Specs : List Spec) :
    ((Visit v (.decl (.GenDecl Doc Specs))).2 = false ↔
        (v.AllStructs = false ∧ needType (CommentGroup.Text Doc) = false) ∨
          (v.AllStructs = true ∧ ignoreType (CommentGroup.Text Doc) = true)) ∧
      (Visit v (.decl (.GenDecl Doc Specs))).1 =
        { v with explicit := needType (CommentGroup.Text Doc) } ∧
      (Visit v (.decl (.GenDecl Doc Specs))).2 =
        (if v.AllStructs then !ignoreType (CommentGroup.Text Doc)
          else needType (CommentGroup.Text Doc)) := by
  simp only [Visit]
  cases hn : needType (CommentGroup.Text Doc) <;>
    cases hi : ignoreType (CommentGroup.Text Doc) <;>
    cases hm : v.AllStructs <;> simp

/-! ## What a group contributes to the selected names -/

theorem needType_of_line (d : String)
    (h : structComment.toList ∈ d.toList.splitOn '\n') : needType d = true :=
  (hasPrefix_iff d structComment).2 ⟨_, h, List.prefix_refl _⟩

theorem hasPrefix_eq_false (d what : String)
    (h : ¬ ∃ l ∈ d.toList.splitOn '\n', what.toList <+: l) : hasPrefix d what = false := by
  cases hp : hasPrefix d what with
  | false => rfl
  | true => exact absurd ((hasPrefix_iff d what).1 hp) h

/-- The names of a unit whose declarations are `pre`, then `d`, then
`post`. -/
theorem walkFile_split (v : visitor) (f : File) (pre post : List Decl) (d : Decl)
    (hf : f.Decls = pre ++ d :: post) :
    (Walk v (.file f)).StructNames =
      v.StructNames ++ sel v.AllStructs (File.mk f.Name pre) ++
        declSel v.AllStructs d ++ sel v.AllStructs (File.mk f.Name post) := by
  rw [walkFile_names, sel_eq, sel_eq, sel_eq, hf]
  simp [List.append_assoc]

/-- The names of a unit from which one declaration is taken out. -/
theorem walkFile_without (v : visitor) (f : File) (pre post : List Decl) :
    (Walk v (.file (File.mk f.Name (pre ++ post)))).StructNames =
      v.StructNames ++ sel v.AllStructs (File.mk f.Name pre) ++
        sel v.AllStructs (File.mk f.Name post) := by
  rw [walkFile_names, sel_eq, sel_eq, sel_eq]
  simp [List.append_assoc]

/-- C3, as the claim states it, fails: in the unit whose only group is
documented with the lines "easyjson:json" and "easyjson:ignore" and declares
`type ID int`, a walk with `AllStructs` true selects nothing, although a
line of the documentation equals the inclusion pragma. -/
theorem explicit_group_skipped_when_ignored :
    structComment.toList ∈ (CommentGroup.Text docBoth).toList.splitOn '\n' ∧
      unitBoth.Decls = [] ++ Decl.GenDecl docBoth [.TypeSpec "ID" (.Ident "int")] :: [] ∧
      typeNames [.TypeSpec "ID" (.Ident "int")] = ["ID"] ∧
      (Walk (newVisitor (freshParser true)) (.file unitBoth)).StructNames = [] ∧
      "ID" ∉ (Walk (newVisitor (freshParser true)) (.file unitBoth)).StructNames := by
  refine ⟨by decide, rfl, rfl, by decide, by decide⟩

/-- C3, amended: when the documentation of a group has a line equal to
"easyjson:json", and `AllStructs` is false or no line of it starts with
"easyjson:ignore", walking the unit appends the names of all types declared
directly under the group, in order, struct or not: the names selected are
those of the declarations before the group, then all type names of the
group, then those of the declarations after it. -/
theorem explicit_group_selects_all_types (v : visitor) (f : File) (pre post : List Decl)
    (Doc : Option CommentGroup) (Specs : List Spec)
    (hf : f.Decls = pre ++ .GenDecl Doc Specs :: post)
    (hline : structComment.toList ∈ (CommentGroup.Text Doc).toList.splitOn '\n')
    (hmode : v.AllStructs = false ∨
      ¬ ∃ l ∈ (CommentGroup.Text Doc).toList.splitOn '\n', structIgnoreComment.toList <+: l) :
    (Walk v (.file f)).StructNames =
      v.StructNames ++ sel v.AllStructs (File.mk f.Name pre) ++
        typeNames Specs ++ sel v.AllStructs (File.mk f.Name post) := by
  rw [walkFile_split v f pre post _ hf]
  have hn := needType_of_line _ hline
  rcases hmode with hm | hi
  · simp [declSel, hn, hm]
  · have hi2 : ignoreType (CommentGroup.Text Doc) = false := hasPrefix_eq_false _ _ hi
    simp [declSel, hn, hi2]

theorem explicit_group_selects_all_types_witness :
    unitExplicit.Decls = [declPoint] ++ .GenDecl docJson specsExplicit :: [.FuncDecl "main"] ∧
      structComment.toList ∈ (CommentGroup.Text docJson).toList.splitOn '\n' ∧
      (visitorMidway true).AllStructs = true ∧
      (¬ ∃ l ∈ (CommentGroup.Text docJson).toList.splitOn '\n',
        structIgnoreComment.toList <+: l) ∧
      typeNames specsExplicit = ["ID", "User"] ∧
      (Walk (visitorMidway true) (.file unitExplicit)).StructNames =
        (visitorMidway true).StructNames ++
          sel (visitorMidway true).AllStructs (File.mk unitExplicit.Name [declPoint]) ++
          typeNames specsExplicit ++
          sel (visitorMidway true).AllStructs
            (File.mk unitExplicit.Name [.FuncDecl "main"]) :=
  ⟨rfl, by decide, rfl, by decide, by decide,
    explicit_group_selects_all_types (visitorMidway true) unitExplicit [declPoint]
      [.FuncDecl "main"] docJson specsExplicit rfl (by decide) (Or.inr (by decide))⟩

/-- C4: with `AllStructs` true, a group whose documentation has a line
starting with "easyjson:ignore" contributes no name, whatever else the
documentation says and whatever the shapes of its types: the names selected
from the unit are those of the declarations before the group followed by
those of the declarations after it, the same as for the unit without the
group. -/
theorem ignored_group_selects_nothing (v : visitor) (f : File) (pre post : List Decl)
    (Doc : Option CommentGroup) (Specs : List Spec)
    (hf : f.Decls = pre ++ .GenDecl Doc Specs :: post)
    (hall : v.AllStructs = true)
    (hign : ∃ l ∈ (CommentGroup.Text Doc).toList.splitOn '\n',
      structIgnoreComment.toList <+: l) :
    (Walk v (.file f)).StructNames =
        v.StructNames ++ sel true (File.mk f.Name pre) ++
          sel true (File.mk f.Name post) ∧
      (Walk v (.file f)).StructNames =
        (Walk v (.file (File.mk f.Name (pre ++ post)))).StructNames := by
  have hi : ignoreType (CommentGroup.Text Doc) = true := (hasPrefix_iff _ _).2 hign
  have hd : declSel true (.GenDecl Doc Specs) = [] := by
    simp [declSel, hi]
  rw [walkFile_without, walkFile_split v f pre post _ hf, hall, hd]
  simp

theorem ignored_group_selects_nothing_witness :
    unitIgnored.Decls =
        [.GenDecl docJson specsExplicit] ++ .GenDecl docBoth specsSecret :: [declPoint] ∧
      (visitorMidway true).AllStructs = true ∧
      (∃ l ∈ (CommentGroup.Text docBoth).toList.splitOn '\n',
        structIgnoreComment.toList <+: l) ∧
      (∃ l ∈ (CommentGroup.Text docBoth).toList.splitOn '\n',
        structComment.toList <+: l) ∧
      (Walk (visitorMidway true) (.file unitIgnored)).StructNames =
        ["Earlier", "ID", "User", "Point"] ∧
      ((Walk (visitorMidway true) (.file unitIgnored)).StructNames =
          (visitorMidway true).StructNames ++
            sel true (File.mk unitIgnored.Name [.GenDecl docJson specsExplicit]) ++
            sel true (File.mk unitIgnored.Name [declPoint]) ∧
        (Walk (visitorMidway true) (.file unitIgnored)).StructNames =
          (Walk (visitorMidway true) (.file (File.mk unitIgnored.Name
            ([.GenDecl docJson specsExplicit] ++ [declPoint])))).StructNames) :=
  ⟨rfl, rfl, by decide, by decide, by decide,
    ignored_group_selects_nothing (visitorMidway true) unitIgnored
      [.GenDecl docJson specsExplicit] [declPoint] docBoth specsSecret rfl rfl (by decide)⟩

/-- C5: with `AllStructs` true, a group whose documentation has neither a
line starting with "easyjson:json" nor one starting with "easyjson:ignore"
contributes exactly the names of those of its type declarations whose type
expression is itself a struct type, in declaration order; its other specs
and the fields of the selected structs contribute nothing. -/
theorem plain_group_selects_struct_types (v : visitor) (f : File) (pre post : List Decl)
    (Doc : Option CommentGroup) (Specs : List Spec)
    (hf : f.Decls = pre ++ .GenDecl Doc Specs :: post)
    (hall : v.AllStructs = true)
    (hjson : ¬ ∃ l ∈ (CommentGroup.Text Doc).toList.splitOn '\n',
      structComment.toList <+: l)
    (hign : ¬ ∃ l ∈ (CommentGroup.Text Doc).toList.splitOn '\n',
      structIgnoreComment.toList <+: l) :
    (Walk v (.file f)).StructNames =
      v.StructNames ++ sel true (File.mk f.Name pre) ++
        structTypeNames Specs ++ sel true (File.mk f.Name post) := by
  have hn : needType (CommentGroup.Text Doc) = false := hasPrefix_eq_false _ _ hjson
  have hi : ignoreType (CommentGroup.Text Doc) = false := hasPrefix_eq_false _ _ hign
  rw [walkFile_split v f pre post _ hf, hall]
  simp [declSel, hn, hi]

theorem plain_group_selects_struct_types_witness :
    unitMixed.Decls =
        [.GenDecl docJson specsExplicit] ++ .GenDecl docPlain specsMixed :: [declPoint] ∧
      (visitorMidway true).AllStructs = true ∧
      (¬ ∃ l ∈ (CommentGroup.Text docPlain).toList.splitOn '\n',
        structComment.toList <+: l) ∧
      (¬ ∃ l ∈ (CommentGroup.Text docPlain).toList.splitOn '\n',
        structIgnoreComment.toList <+: l) ∧
      typeNames specsMixed = ["Line", "Ref", "Many", "Index", "Wrapped", "Empty"] ∧
      structTypeNames specsMixed = ["Line", "Empty"] ∧
      (Walk (visitorMidway true) (.file unitMixed)).StructNames =
        (visitorMidway true).StructNames ++
          sel true (File.mk unitMixed.Name [.GenDecl docJson specsExplicit]) ++
          structTypeNames specsMixed ++
          sel true (File.mk unitMixed.Name [declPoint]) :=
  ⟨rfl, rfl, by decide, by decide, by decide, by decide,
    plain_group_selects_struct_types (visitorMidway true) unitMixed
      [.GenDecl docJson specsExplicit] [declPoint] docPlain specsMixed rfl rfl
      (by decide) (by decide)⟩

/-- C6: with `AllStructs` false, a group whose documentation has no line
starting with "easyjson:json" (a group without documentation among them)
contributes no name, whatever the shapes of its types, the scratch state of
the visitor and the groups before it: the names selected from the unit are
those of the declarations before the group followed by those of the
declarations after it, the same as for the unit without the group. -/
theorem unmarked_group_selects_nothing (v : visitor) (f : File) (pre post : List Decl)
    (Doc : Option CommentGroup) (Specs : List Spec)
    (hf : f.Decls = pre ++ .GenDecl Doc Specs :: post)
    (hmode : v.AllStructs = false)
    (hjson : ¬ ∃ l ∈ (CommentGroup.Text Doc).toList.splitOn '\n',
      structComment.toList <+: l) :
    (Walk v (.file f)).StructNames =
        v.StructNames ++ sel false (File.mk f.Name pre) ++
          sel false (File.mk f.Name post) ∧
      (Walk v (.file f)).StructNames =
        (Walk v (.file (File.mk f.Name (pre ++ post)))).StructNames := by
  have hn : needType (CommentGroup.Text Doc) = false := hasPrefix_eq_false _ _ hjson
  have hd : declSel false (.GenDecl Doc Specs) = [] := by
    simp [declSel, hn]
  rw [walkFile_without, walkFile_split v f pre post _ hf, hmode, hd]
  simp

theorem unmarked_group_selects_nothing_witness :
    unitMixed.Decls =
        [.GenDecl docJson specsExplicit, .GenDecl docPlain specsMixed] ++
          .GenDecl none [.TypeSpec "Point" (.StructType
            [.mk ["X", "Y"] (.Ident "int"),
              .mk ["In"] (.StructType [.mk ["Z"] (.Ident "int")])])] :: [] ∧
      (visitorMidway false).AllStructs = false ∧
      (visitorMidway false).explicit = true ∧
      (¬ ∃ l ∈ (CommentGroup.Text none).toList.splitOn '\n', structComment.toList <+: l) ∧
      (Walk (visitorMidway false) (.file unitMixed)).StructNames = ["Earlier", "ID", "User"] ∧
      ((Walk (visitorMidway false) (.file unitMixed)).StructNames =
          (visitorMidway false).StructNames ++
            sel false (File.mk unitMixed.Name
              [.GenDecl docJson specsExplicit, .GenDecl docPlain specsMixed]) ++
            sel false (File.mk unitMixed.Name []) ∧
        (Walk (visitorMidway false) (.file unitMixed)).StructNames =
          (Walk (visitorMidway false) (.file (File.mk unitMixed.Name
            ([.GenDecl docJson specsExplicit, .GenDecl docPlain specsMixed] ++
              [])))).StructNames) :=
  ⟨rfl, rfl, rfl, by decide, by decide,
    unmarked_group_selects_nothing (visitorMidway false) unitMixed
      [.GenDecl docJson specsExplicit, .GenDecl docPlain specsMixed] [] none _ rfl rfl
      (by decide)⟩

end Easyjson

namespace Easyjson

/-! ## Counting and order of the selected names -/

theorem walkPackages_AllStructs (p : Parser) (pkgs : List Package) :
    (walkPackages p pkgs).AllStructs = p.AllStructs := by
  induction pkgs generalizing p with
  | nil => rfl
  | cons pk rest ih =>
    rw [walkPackages, ih]
    simp only [Walk, walkPackage_eq]
    exact walkFiles_AllStructs (newVisitor p) pk.Files

theorem walkPackages_StructNames (p : Parser) (pkgs : List Package) :
    (walkPackages p pkgs).StructNames =
      p.StructNames ++
        (pkgs.map (fun pk => (pk.Files.map (sel p.AllStructs)).flatten)).flatten := by
  induction pkgs generalizing p with
  | nil => simp [walkPackages]
  | cons pk rest ih =>
    rw [walkPackages, ih]
    simp only [Walk, walkPackage_eq]
    have h1 := walkFiles_StructNames (newVisitor p) pk.Files
    have h2 := walkFiles_AllStructs (newVisitor p) pk.Files
    simp only [newVisitor] at h1 h2
    simp only [newVisitor]
    rw [h1, h2]
    simp

/-- C7: one walk appends the name of a type declaration at most once. At a
type declaration of an explicit group the walk appends the name exactly once
and does not append it again for the struct body, whatever the type
expression and the mode flag; the names a walk of a unit appends are no
more than the unit has type declarations, no name is appended more often
than it is declared, and when the declared names are distinct so are the
appended ones. -/
theorem name_appended_at_most_once (v : visitor) (f : File) (Name : String) (Typ : Expr) :
    (Walk { v with explicit := true } (.spec (.TypeSpec Name Typ))).StructNames =
        v.StructNames ++ [Name] ∧
      (Walk v (.file f)).StructNames = v.StructNames ++ sel v.AllStructs f ∧
      (sel v.AllStructs f).length ≤ (fileTypeNames f).length ∧
      (∀ n, (sel v.AllStructs f).count n ≤ (fileTypeNames f).count n) ∧
      ((fileTypeNames f).Nodup → (sel v.AllStructs f).Nodup) := by
  refine ⟨?_, walkFile_names v f, (sel_sublist _ f).length_le,
    fun n => (sel_sublist _ f).count_le n, fun h => h.sublist (sel_sublist _ f)⟩
  simp only [Walk]
  rw [walkSpec_TypeSpec_explicit _ Name Typ rfl]

theorem hasPrefix_leading_blank (w s p : String) (c0 : Char) (ps : List Char)
    (hp : p.toList = c0 :: ps) (hpn : '\n' ∉ p.toList) (hc : c0 ≠ ' ' ∧ c0 ≠ '\t')
    (hw : w ≠ "") (hws : ∀ c ∈ w.toList, c = ' ' ∨ c = '\t') (hs : '\n' ∉ s.toList) :
    hasPrefix (w ++ p ++ s) p = false := by
  have hall : (w ++ p ++ s).toList = w.toList ++ (p.toList ++ s.toList) := by
    simp [String.toList]
  have hwn : '\n' ∉ w.toList := by
    intro h
    rcases hws _ h with h' | h' <;> exact absurd h' (by decide)
  have hnl : '\n' ∉ (w ++ p ++ s).toList := by
    rw [hall]
    simp only [List.mem_append, not_or]
    exact ⟨hwn, hpn, hs⟩
  unfold hasPrefix
  rw [Split_of_no_newline _ hnl, hall, hp]
  cases hwl : w.toList with
  | nil =>
    exfalso
    apply hw
    apply String.ext
    simpa [String.toList] using hwl
  | cons a rest =>
    have ha : a = ' ' ∨ a = '\t' := hws a (hwl ▸ List.mem_cons_self a rest)
    have hne : a ≠ c0 := by
      rcases ha with h | h
      · rw [h]; exact fun e => hc.1 e.symm
      · rw [h]; exact fun e => hc.2 e.symm
    simp [hasPrefixLoop, HasPrefix, hne]

/-- C8: a pragma behind leading blanks is not recognised: for every
non-empty text `w` of spaces and tabs and every text `s` without newline,
`needType (w ++ "easyjson:json" ++ s)` and
`ignoreType (w ++ "easyjson:ignore" ++ s)` are false. -/
theorem leading_blank_not_recognised (w s : String) (hw : w ≠ "")
    (hws : ∀ c ∈ w.toList, c = ' ' ∨ c = '\t') (hs : '\n' ∉ s.toList) :
    needType (w ++ "easyjson:json" ++ s) = false ∧
      ignoreType (w ++ "easyjson:ignore" ++ s) = false :=
  ⟨hasPrefix_leading_blank w s structComment 'e' "asyjson:json".toList rfl (by decide)
      (by decide) hw hws hs,
    hasPrefix_leading_blank w s structIgnoreComment 'e' "asyjson:ignore".toList rfl
      (by decide) (by decide) hw hws hs⟩

theorem leading_blank_not_recognised_witness :
    (" \t" : String) ≠ "" ∧ (∀ c ∈ (" \t" : String).toList, c = ' ' ∨ c = '\t') ∧
      '\n' ∉ (" and more" : String).toList ∧
      needType (" \t" ++ "easyjson:json" ++ " and more") = false ∧
      ignoreType (" \t" ++ "easyjson:ignore" ++ " and more") = false ∧
      needType ("easyjson:json" ++ " and more") = true :=
  ⟨by decide, by decide, by decide,
    (leading_blank_not_recognised " \t" " and more" (by decide) (by decide) (by decide)).1,
    (leading_blank_not_recognised " \t" " and more" (by decide) (by decide) (by decide)).2,
    by decide⟩

/-- C9: walking a sequence of units with one shared accumulator gives the
concatenation of the results per unit. With `sel m u` the names selected by
walking `u` alone from a fresh accumulator with mode flag `m`: the loop over
the files of a package, started in any visitor state, ends with the names it
started with followed by `sel m u` for each unit in turn, nothing dropped or
merged; the same holds for the walk of the package node, for the loop of
`Parse` over the packages of a directory and for `Parse` itself. -/
theorem shared_accumulator_concatenates (v : visitor) (us : List File) (pkgName : String)
    (p : Parser) (pkgs : List Package) (path : String) (file : Except String File) :
    (walkFiles v us).StructNames =
        v.StructNames ++ (us.map (sel v.AllStructs)).flatten ∧
      (Walk v (.package (Package.mk pkgName us))).StructNames =
        v.StructNames ++ (us.map (sel v.AllStructs)).flatten ∧
      (walkPackages p pkgs).StructNames =
        p.StructNames ++
          (pkgs.map (fun pk => (pk.Files.map (sel p.AllStructs)).flatten)).flatten ∧
      (Parse (path, none) (.ok pkgs) file p true).1.StructNames =
        p.StructNames ++
          (pkgs.map (fun pk => (pk.Files.map (sel p.AllStructs)).flatten)).flatten := by
  refine ⟨walkFiles_StructNames v us, ?_, walkPackages_StructNames p pkgs, ?_⟩
  · simp only [Walk, walkPackage_eq]
    exact walkFiles_StructNames v us
  · simp only [Parse, if_true]
    exact walkPackages_StructNames _ pkgs

/-- C10: the names a walk of a unit appends are in declaration order: they
are a subsequence of the names of the type declarations of the unit, taken
group by group and declaration by declaration; so every appended name is
the name of a type declaration of the unit. -/
theorem selected_names_in_declaration_order (v : visitor) (f : File) :
    (Walk v (.file f)).StructNames = v.StructNames ++ sel v.AllStructs f ∧
      (sel v.AllStructs f).Sublist (fileTypeNames f) ∧
      ∀ n ∈ sel v.AllStructs f, n ∈ fileTypeNames f :=
  ⟨walkFile_names v f, sel_sublist _ f, fun _ hn => (sel_sublist _ f).subset hn⟩

end Easyjson

namespace Easyjson

/-! ## The package name and the frame of a walk -/

theorem walkFiles_frame (v : visitor) (fs : List File) :
    (walkFiles v fs).AllStructs = v.AllStructs ∧ (walkFiles v fs).PkgPath = v.PkgPath := by
  induction fs generalizing v with
  | nil => simp [walkFiles]
  | cons f fs ih =>
    rw [walkFiles]
    obtain ⟨h1, h2⟩ := ih (walkFile v f)
    obtain ⟨g1, _, g3⟩ := walkFile_frame v f
    exact ⟨h1.trans g1, h2.trans g3⟩

theorem walkFiles_PkgName (v : visitor) (fs : List File) :
    (walkFiles v fs).PkgName = ((fs.map File.Name).getLast?).getD v.PkgName := by
  induction fs generalizing v with
  | nil => simp [walkFiles]
  | cons f fs ih =>
    rw [walkFiles, ih, (walkFile_frame v f).2.1, List.map_cons, List.getLast?_cons]
    rfl

theorem walkPackages_PkgPath (p : Parser) (pkgs : List Package) :
    (walkPackages p pkgs).PkgPath = p.PkgPath := by
  induction pkgs generalizing p with
  | nil => rfl
  | cons pk rest ih =>
    rw [walkPackages, ih]
    simp only [Walk, walkPackage_eq]
    exact (walkFiles_frame (newVisitor p) pk.Files).2

theorem getLast?_append_getD (xs ys : List String) (d : String) :
    ((xs ++ ys).getLast?).getD d = (ys.getLast?).getD ((xs.getLast?).getD d) := by
  induction ys using List.reverseRecOn with
  | nil => simp
  | append_singleton ys y _ =>
    rw [← List.append_assoc]
    simp

theorem walkPackages_PkgName (p : Parser) (pkgs : List Package) :
    (walkPackages p pkgs).PkgName = ((unitNames pkgs).getLast?).getD p.PkgName := by
  induction pkgs generalizing p with
  | nil => simp [walkPackages, unitNames]
  | cons pk rest ih =>
    rw [walkPackages, ih]
    simp only [Walk, walkPackage_eq]
    have h := walkFiles_PkgName (newVisitor p) pk.Files
    simp only [newVisitor] at h
    simp only [newVisitor]
    rw [h]
    simp only [unitNames, List.map_cons, List.flatten_cons, List.map_append]
    rw [getLast?_append_getD]

/-- C11: after walking a non-empty sequence of units with a shared
accumulator `PkgName` is the declared name of the last unit, whatever names
the earlier units declared, and walking no unit leaves `PkgName` as it was;
this holds for the loop over the files of a package, for the walk of a
package node and for the loop of `Parse` over the packages of a
directory. -/
theorem PkgName_is_last_unit (v : visitor) (us : List File) (u : File) (pkgName : String)
    (p : Parser) (pkgs : List Package) :
    (walkFiles v (us ++ [u])).PkgName = u.Name ∧
      (walkFiles v []).PkgName = v.PkgName ∧
      (Walk v (.package (Package.mk pkgName (us ++ [u])))).PkgName = u.Name ∧
      (Walk v (.package (Package.mk pkgName []))).PkgName = v.PkgName ∧
      (walkPackages p (pkgs ++ [Package.mk pkgName (us ++ [u])])).PkgName = u.Name ∧
      (walkPackages p pkgs).PkgName = ((unitNames pkgs).getLast?).getD p.PkgName ∧
      (walkPackages p []).PkgName = p.PkgName := by
  refine ⟨?_, rfl, ?_, ?_, ?_, walkPackages_PkgName p pkgs, rfl⟩
  · rw [walkFiles_PkgName]; simp
  · simp only [Walk, walkPackage_eq]
    rw [walkFiles_PkgName]; simp
  · simp only [Walk, walkPackage_eq]
    rfl
  · rw [walkPackages_PkgName]
    simp [unitNames]

/-- C12: when `getPkgPath` returns an error, or `ParseDir` (directory mode)
or `ParseFile` (file mode) does, `Parse` returns that error and walks
nothing: `StructNames` and `PkgName` are what they were before the call.
When neither fails `Parse` returns nil and the accumulator is the one left
by walking every package of the directory, or the one file. -/
theorem Parse_error_or_complete (path err : String) (dir : Except String (List Package))
    (file : Except String File) (p : Parser) (isDir : Bool) (pkgs : List Package)
    (f : File) :
    (Parse (path, some err) dir file p isDir).2 = some err ∧
      (Parse (path, some err) dir file p isDir).1.StructNames = p.StructNames ∧
      (Parse (path, some err) dir file p isDir).1.PkgName = p.PkgName ∧
      (Parse (path, none) (.error err) file p true).2 = some err ∧
      (Parse (path, none) (.error err) file p true).1.StructNames = p.StructNames ∧
      (Parse (path, none) (.error err) file p true).1.PkgName = p.PkgName ∧
      (Parse (path, none) dir (.error err) p false).2 = some err ∧
      (Parse (path, none) dir (.error err) p false).1.StructNames = p.StructNames ∧
      (Parse (path, none) dir (.error err) p false).1.PkgName = p.PkgName ∧
      Parse (path, none) (.ok pkgs) file p true =
        (walkPackages { p with PkgPath := path } pkgs, none) ∧
      (Parse (path, none) (.ok pkgs) file p true).1.StructNames =
        p.StructNames ++
          (pkgs.map (fun pk => (pk.Files.map (sel p.AllStructs)).flatten)).flatten ∧
      Parse (path, none) dir (.ok f) p false =
        ((Walk (newVisitor { p with PkgPath := path }) (.file f)).toParser, none) ∧
      (Parse (path, none) dir (.ok f) p false).1.StructNames =
        p.StructNames ++ sel p.AllStructs f := by
  refine ⟨rfl, rfl, rfl, rfl, rfl, rfl, rfl, rfl, rfl, rfl, ?_, rfl, ?_⟩
  · simp only [Parse, if_true]
    exact walkPackages_StructNames _ pkgs
  · simp only [Parse]
    exact walkFile_names (newVisitor { p with PkgPath := path }) f

theorem Walk_skip_of_not_recognised (v : visitor) (n : Node) (h : recognised n = false) :
    Walk v n = v := by
  cases n with
  | nil => simp [Walk, walkNode, Visit]
  | commentGroup g => simp [Walk, walkCommentGroup, walkNode, Visit]
  | field f => cases f; simp [Walk, walkField, walkNode, Visit]
  | fieldList fs => simp [Walk, walkFieldList, walkNode, Visit]
  | expr e =>
    simp only [Walk]
    rw [walkExpr_eq]
    cases e <;> simp_all [recognised]
  | spec s =>
    cases s with
    | ImportSpec Path => exact walkSpec_ImportSpec v Path
    | ValueSpec Names Typ Values => exact walkSpec_ValueSpec v Names Typ Values
    | TypeSpec Name Typ => simp [recognised] at h
  | decl d =>
    cases d with
    | BadDecl => simp [Walk, walkDecl, walkNode, Visit]
    | FuncDecl Name => simp [Walk, walkDecl, walkNode, Visit]
    | GenDecl Doc Specs => simp [recognised] at h
  | file f => simp [recognised] at h
  | package p => simp [recognised] at h

theorem walkSpec_frame (v : visitor) (s : Spec) :
    (walkSpec v s).PkgPath = v.PkgPath ∧ (walkSpec v s).AllStructs = v.AllStructs := by
  cases s with
  | ImportSpec Path => rw [walkSpec_ImportSpec]; exact ⟨rfl, rfl⟩
  | ValueSpec Names Typ Values => rw [walkSpec_ValueSpec]; exact ⟨rfl, rfl⟩
  | TypeSpec Name Typ =>
    cases he : v.explicit with
    | true => rw [walkSpec_TypeSpec_explicit v Name Typ he]; exact ⟨rfl, rfl⟩
    | false =>
      rw [walkSpec_TypeSpec_pending v Name Typ he, walkExpr_eq]
      cases Typ <;> exact ⟨rfl, rfl⟩

theorem Walk_frame (v : visitor) (n : Node) :
    (Walk v n).PkgPath = v.PkgPath ∧ (Walk v n).AllStructs = v.AllStructs := by
  cases hr : recognised n with
  | false => rw [Walk_skip_of_not_recognised v n hr]; exact ⟨rfl, rfl⟩
  | true =>
    cases n with
    | expr e =>
      simp only [Walk]
      rw [walkExpr_eq]
      cases e <;> exact ⟨rfl, rfl⟩
    | spec s => exact walkSpec_frame v s
    | decl d => exact ⟨(walkDecl_frame v d).2.2, (walkDecl_frame v d).1⟩
    | file f => exact ⟨(walkFile_frame v f).2.2, (walkFile_frame v f).1⟩
    | package p =>
      simp only [Walk, walkPackage_eq]
      exact ⟨(walkFiles_frame v p.Files).2, (walkFiles_frame v p.Files).1⟩
    | _ => simp [recognised] at hr

theorem Visit_frame (v : visitor) (n : Node) :
    (Visit v n).1.PkgPath = v.PkgPath ∧ (Visit v n).1.AllStructs = v.AllStructs := by
  unfold Visit
  split
  · exact ⟨rfl, rfl⟩
  · exact ⟨rfl, rfl⟩
  · dsimp only
    split <;> exact ⟨rfl, rfl⟩
  · dsimp only
    split <;> exact ⟨rfl, rfl⟩
  · exact ⟨rfl, rfl⟩
  · exact ⟨rfl, rfl⟩

/-- C13: the walker changes neither `PkgPath` nor `AllStructs`: `Visit`
leaves both as they were at every node and in every visitor state, and so
do the walk of any node, the walk of a sequence of units and the loop of
`Parse` over the packages of a directory. -/
theorem walk_keeps_PkgPath_and_AllStructs (v : visitor) (n : Node) (us : List File)
    (p : Parser) (pkgs : List Package) :
    (Visit v n).1.PkgPath = v.PkgPath ∧ (Visit v n).1.AllStructs = v.AllStructs ∧
      (Walk v n).PkgPath = v.PkgPath ∧ (Walk v n).AllStructs = v.AllStructs ∧
      (walkFiles v us).PkgPath = v.PkgPath ∧ (walkFiles v us).AllStructs = v.AllStructs ∧
      (walkPackages p pkgs).PkgPath = p.PkgPath ∧
      (walkPackages p pkgs).AllStructs = p.AllStructs := by
  refine ⟨?_, ?_, (Walk_frame v n).1, (Walk_frame v n).2, (walkFiles_frame v us).2,
    (walkFiles_frame v us).1, walkPackages_PkgPath p pkgs, walkPackages_AllStructs p pkgs⟩
  · exact (Visit_frame v n).1
  · exact (Visit_frame v n).2

/-- C14: `Visit` is a total function and skips what it does not recognise:
at a node that is no package, file, declaration group, type declaration or
struct type it returns nil and leaves the whole visitor state, `PkgName` and
`StructNames` included, as it was; the walk of such a node does not enter
it. -/
theorem Visit_skips_unrecognised (v : visitor) (n : Node) (h : recognised n = false) :
    Visit v n = (v, false) ∧ Walk v n = v := by
  refine ⟨?_, Walk_skip_of_not_recognised v n h⟩
  unfold Visit
  split <;> simp_all [recognised]

theorem Visit_skips_unrecognised_witness :
    recognised (.spec (.ValueSpec ["origin"] (some (.StructType [])) [])) = false ∧
      (Visit (visitorMidway true) (.spec (.ValueSpec ["origin"] (some (.StructType [])) [])) =
          (visitorMidway true, false) ∧
        Walk (visitorMidway true) (.spec (.ValueSpec ["origin"] (some (.StructType [])) [])) =
          visitorMidway true) :=
  ⟨rfl, Visit_skips_unrecognised (visitorMidway true)
    (.spec (.ValueSpec ["origin"] (some (.StructType [])) [])) rfl⟩

end Easyjson

namespace Easyjson

/-! ## Two runs over the same units -/

theorem flatten_map_units (g : File → List String) (pkgs : List Package) :
    (pkgs.map (fun pk => (pk.Files.map g).flatten)).flatten =
      (((pkgs.map Package.Files).flatten).map g).flatten := by
  induction pkgs with
  | nil => rfl
  | cons pk rest ih =>
    simp only [List.map_cons, List.flatten_cons, List.map_append, List.flatten_append, ih]

/-- The names `Parse` selects from a directory, by the units in the order
in which they are met. -/
theorem Parse_dir_StructNames (path : String) (pkgs : List Package)
    (file : Except String File) (p : Parser) :
    (Parse (path, none) (.ok pkgs) file p true).1.StructNames =
      p.StructNames ++ (((pkgs.map Package.Files).flatten).map (sel p.AllStructs)).flatten := by
  simp only [Parse, if_true]
  rw [walkPackages_StructNames, flatten_map_units]

theorem Parse_dir_PkgName (path : String) (pkgs : List Package)
    (file : Except String File) (p : Parser) :
    (Parse (path, none) (.ok pkgs) file p true).1.PkgName =
      ((((pkgs.map Package.Files).flatten).map File.Name).getLast?).getD p.PkgName := by
  simp only [Parse, if_true]
  rw [walkPackages_PkgName]
  rfl

/-- C15, as the claim states it, fails for more than one unit: the code
ranges over maps of packages and of files, so the same units can be met in
either order, and the two orders of the packages `shapes` and `other` give
the selected names in different orders and different values of `PkgName`. -/
theorem two_runs_differ_in_other_order :
    [pkgShapes, pkgOther].Perm [pkgOther, pkgShapes] ∧
      (Parse ("example.com/shapes", none) (.ok [pkgShapes, pkgOther]) (.error "")
          (freshParser true) true).1.StructNames =
        ["ID", "User", "Point", "Point"] ∧
      (Parse ("example.com/shapes", none) (.ok [pkgOther, pkgShapes]) (.error "")
          (freshParser true) true).1.StructNames =
        ["Point", "ID", "User", "Point"] ∧
      (Parse ("example.com/shapes", none) (.ok [pkgShapes, pkgOther]) (.error "")
          (freshParser true) true).1.PkgName = "other" ∧
      (Parse ("example.com/shapes", none) (.ok [pkgOther, pkgShapes]) (.error "")
          (freshParser true) true).1.PkgName = "shapes" ∧
      (Parse ("example.com/shapes", none) (.ok [pkgShapes, pkgOther]) (.error "")
          (freshParser true) true).1.StructNames ≠
        (Parse ("example.com/shapes", none) (.ok [pkgOther, pkgShapes]) (.error "")
          (freshParser true) true).1.StructNames ∧
      (Parse ("example.com/shapes", none) (.ok [pkgShapes, pkgOther]) (.error "")
          (freshParser true) true).1.PkgName ≠
        (Parse ("example.com/shapes", none) (.ok [pkgOther, pkgShapes]) (.error "")
          (freshParser true) true).1.PkgName := by
  refine ⟨List.Perm.swap _ _ _, by decide, by decide, by decide, by decide, by decide,
    by decide⟩

/-- C15, amended: two runs of `Parse` over the same units, each from a fresh
accumulator with the same mode flag, select the same names with the same
multiplicities, in whatever order each run meets the units: the two
sequences of selected names are permutations of each other. When both runs
meet the units in the same order the two sequences are identical, names and
order, and so is `PkgName`; for a single unit this is always so. -/
theorem two_runs_select_same_names (m : Bool) (path1 path2 : String)
    (pkgs1 pkgs2 : List Package) (file1 file2 : Except String File)
    (dir1 dir2 : Except String (List Package)) (f : File)
    (hunits : ((pkgs1.map Package.Files).flatten).Perm ((pkgs2.map Package.Files).flatten)) :
    ((Parse (path1, none) (.ok pkgs1) file1 (freshParser m) true).1.StructNames).Perm
        (Parse (path2, none) (.ok pkgs2) file2 (freshParser m) true).1.StructNames ∧
      (∀ n, (Parse (path1, none) (.ok pkgs1) file1 (freshParser m) true).1.StructNames.count n =
        (Parse (path2, none) (.ok pkgs2) file2 (freshParser m) true).1.StructNames.count n) ∧
      ((pkgs1.map Package.Files).flatten = (pkgs2.map Package.Files).flatten →
        (Parse (path1, none) (.ok pkgs1) file1 (freshParser m) true).1.StructNames =
            (Parse (path2, none) (.ok pkgs2) file2 (freshParser m) true).1.StructNames ∧
          (Parse (path1, none) (.ok pkgs1) file1 (freshParser m) true).1.PkgName =
            (Parse (path2, none) (.ok pkgs2) file2 (freshParser m) true).1.PkgName) ∧
      (Parse (path1, none) dir1 (.ok f) (freshParser m) false).1.StructNames =
        (Parse (path2, none) dir2 (.ok f) (freshParser m) false).1.StructNames ∧
      (Parse (path1, none) dir1 (.ok f) (freshParser m) false).1.PkgName =
        (Parse (path2, none) dir2 (.ok f) (freshParser m) false).1.PkgName := by
  have hperm : ((Parse (path1, none) (.ok pkgs1) file1 (freshParser m) true).1.StructNames).Perm
      (Parse (path2, none) (.ok pkgs2) file2 (freshParser m) true).1.StructNames := by
    rw [Parse_dir_StructNames, Parse_dir_StructNames]
    exact ((hunits.map (sel (freshParser m).AllStructs)).flatten).append_left _
  refine ⟨hperm, fun n => hperm.count_eq n, ?_, ?_, ?_⟩
  · intro heq
    constructor
    · rw [Parse_dir_StructNames, Parse_dir_StructNames, heq]
    · rw [Parse_dir_PkgName, Parse_dir_PkgName, heq]
  · simp only [Parse, Bool.false_eq_true, if_false]
    rw [walkFile_names, walkFile_names]
    rfl
  · simp only [Parse, Bool.false_eq_true, if_false, Walk]
    exact ((walkFile_frame _ f).2.1).trans ((walkFile_frame _ f).2.1).symm

theorem two_runs_select_same_names_witness :
    (([pkgShapes, pkgOther].map Package.Files).flatten).Perm
        (([pkgOther, pkgShapes].map Package.Files).flatten) ∧
      ([pkgShapes, pkgOther].map Package.Files).flatten ≠
        ([pkgOther, pkgShapes].map Package.Files).flatten ∧
      (Parse ("example.com/shapes", none) (.ok [pkgShapes, pkgOther]) (.error "")
          (freshParser true) true).1.StructNames = ["ID", "User", "Point", "Point"] ∧
      (Parse ("/src/shapes", none) (.ok [pkgOther, pkgShapes]) (.error "")
          (freshParser true) true).1.StructNames = ["Point", "ID", "User", "Point"] ∧
      ((Parse ("example.com/shapes", none) (.ok [pkgShapes, pkgOther]) (.error "")
          (freshParser true) true).1.StructNames).Perm
        (Parse ("/src/shapes", none) (.ok [pkgOther, pkgShapes]) (.error "")
          (freshParser true) true).1.StructNames :=
  ⟨List.Perm.swap _ _ _, by simp [pkgShapes, pkgOther, unitShapes, unitAgain], by decide,
    by decide,
    (two_runs_select_same_names true "example.com/shapes" "/src/shapes"
      [pkgShapes, pkgOther] [pkgOther, pkgShapes] (.error "") (.error "") (.error "")
      (.error "") unitShapes (List.Perm.swap _ _ _)).1⟩

/-! ## Optional values -/

/-- C16: the code does not do what the claim says. `UnmarshalJSON` builds
its lexer without the data, so for every lexer the receiver and the error
after the call are the same for all data; hence it cannot leave the
receiver equal to `OUint32 0` on the bytes of `OUint32 0` and equal to
`OUint32 1` on the bytes of `OUint32 1`, nor decode `OUint32 1` and leave
the receiver undefined on the bytes of an undefined value. -/
theorem UnmarshalJSON_does_not_read_data {L W E : Type} (lops : LexerOps L E)
    (wops : WriterOps W E) (v : Uint32) (data1 data2 : List Nat) :
    Uint32.UnmarshalJSON lops v data1 = Uint32.UnmarshalJSON lops v data2 ∧
      ¬ ((Uint32.UnmarshalJSON lops v (Uint32.MarshalJSON wops (OUint32 0)).1).1 =
            OUint32 0 ∧
          (Uint32.UnmarshalJSON lops v (Uint32.MarshalJSON wops (OUint32 1)).1).1 =
            OUint32 1) ∧
      ¬ ((Uint32.UnmarshalJSON lops v (Uint32.MarshalJSON wops (OUint32 1)).1).1 =
            OUint32 1 ∧
          (Uint32.UnmarshalJSON lops v
            (Uint32.MarshalJSON wops { V := 0, Defined := false }).1).1.Defined = false) := by
  refine ⟨rfl, ?_, ?_⟩
  · rintro ⟨h0, h1⟩
    have h : OUint32 0 = OUint32 1 := h0.symm.trans h1
    simp [OUint32] at h
  · rintro ⟨h1, hu⟩
    have h : (OUint32 1).Defined = false :=
      (congrArg Uint32.Defined h1).symm.trans hu
    simp [OUint32] at h

/-- C17: `Get` returns the value or the given default: `(OUint32 v).Get d`
is `v` and `OUint32 v` is defined; a value with `Defined` false gives the
default whatever its field `V` holds, the zero value among them. -/
theorem Get_value_or_default (v d x : Nat) :
    (OUint32 v).Get d = v ∧ (OUint32 v).IsDefined = true ∧
      (Uint32.mk x false).Get d = d ∧ (Uint32.mk x false).IsDefined = false ∧
      (Uint32.mk 0 false).Get d = d :=
  ⟨rfl, rfl, rfl, rfl, rfl⟩

/-! ## Marshalling to an HTTP response -/

/-- C18: `started` is false exactly when the marshaler left an error in the
writer; then the call returns false, 0 and that error, and the response
writer is as it was before the call. Otherwise `started` is true and the
body is dumped to the response writer after `Content-Type` was set to
"application/json" and `Content-Length` to the decimal text of the size of
the writer. `MarshalToHTTPResponseWriter` is the same with the tag "json".
On a response writer that records its calls the calls are, in order, the two
header settings and the write. -/
theorem MarshalToHTTPResponseWriter_started {W R E : Type} (ops : ResponseOps W R E)
    (v : W → String → W) (w : R) (usingTagName : String) :
    ((MarshalToHTTPResponseWriterCustom ops v w usingTagName).2.1 = false ↔
        ops.Error (v ops.nilSliceAsEmpty usingTagName) ≠ none) ∧
      (∀ err, ops.Error (v ops.nilSliceAsEmpty usingTagName) = some err →
        MarshalToHTTPResponseWriterCustom ops v w usingTagName = (w, false, 0, some err)) ∧
      (ops.Error (v ops.nilSliceAsEmpty usingTagName) = none →
        MarshalToHTTPResponseWriterCustom ops v w usingTagName =
          ((ops.DumpTo (v ops.nilSliceAsEmpty usingTagName)
              (ops.HeaderSet (ops.HeaderSet w "Content-Type" "application/json")
                "Content-Length" (Itoa (ops.Size (v ops.nilSliceAsEmpty usingTagName))))).1,
            true,
            (ops.DumpTo (v ops.nilSliceAsEmpty usingTagName)
              (ops.HeaderSet (ops.HeaderSet w "Content-Type" "application/json")
                "Content-Length" (Itoa (ops.Size (v ops.nilSliceAsEmpty usingTagName))))).2)) ∧
      MarshalToHTTPResponseWriter ops v w =
        MarshalToHTTPResponseWriterCustom ops v w "json" ∧
      MarshalToHTTPResponseWriter recordingOps (fun _ _ => (none, 42)) [] =
        (["Content-Type: application/json", "Content-Length: 42", "Write"], true, 42, none) ∧
      MarshalToHTTPResponseWriter recordingOps (fun _ _ => (some "unsupported", 42)) [] =
        ([], false, 0, some "unsupported") := by
  refine ⟨?_, ?_, ?_, rfl, by decide, by decide⟩
  · unfold MarshalToHTTPResponseWriterCustom
    cases h : ops.Error (v ops.nilSliceAsEmpty usingTagName) <;> simp [h]
  · intro err h
    unfold MarshalToHTTPResponseWriterCustom
    simp [h]
  · intro h
    unfold MarshalToHTTPResponseWriterCustom
    simp [h]

/-! ## Further properties of the walk -/

/-- C19: with `AllStructs` false the exclusion pragma has no effect: a group
whose documentation has a line starting with "easyjson:json" contributes the
names of all its type declarations, in order, whether or not a line starts
with "easyjson:ignore"; and the names any group contributes depend on its
documentation through `needType` alone. -/
theorem ignore_without_effect_when_not_all (v : visitor) (f : File) (pre post : List Decl)
    (Doc : Option CommentGroup) (Specs : List Spec)
    (hf : f.Decls = pre ++ .GenDecl Doc Specs :: post)
    (hmode : v.AllStructs = false)
    (hjson : ∃ l ∈ (CommentGroup.Text Doc).toList.splitOn '\n',
      structComment.toList <+: l) :
    (Walk v (.file f)).StructNames =
        v.StructNames ++ sel false (File.mk f.Name pre) ++ typeNames Specs ++
          sel false (File.mk f.Name post) ∧
      (∀ (D : Option CommentGroup) (S : List Spec),
        (Walk v (.decl (.GenDecl D S))).StructNames =
          v.StructNames ++ (if needType (CommentGroup.Text D) then typeNames S else [])) ∧
      (∀ (D1 D2 : Option CommentGroup) (S : List Spec),
        needType (CommentGroup.Text D1) = needType (CommentGroup.Text D2) →
          (Walk v (.decl (.GenDecl D1 S))).StructNames =
            (Walk v (.decl (.GenDecl D2 S))).StructNames) := by
  have hn : needType (CommentGroup.Text Doc) = true := (hasPrefix_iff _ _).2 hjson
  have hD : ∀ (D : Option CommentGroup) (S : List Spec),
      (Walk v (.decl (.GenDecl D S))).StructNames =
        v.StructNames ++ (if needType (CommentGroup.Text D) then typeNames S else []) := by
    intro D S
    simp only [Walk]
    rw [walkDecl_StructNames, hmode]
    cases h : needType (CommentGroup.Text D) <;> simp [declSel, h]
  refine ⟨?_, hD, ?_⟩
  · rw [walkFile_split v f pre post _ hf, hmode]
    simp [declSel, hn]
  · intro D1 D2 S h
    rw [hD, hD, h]

theorem ignore_without_effect_when_not_all_witness :
    unitIgnored.Decls =
        [.GenDecl docJson specsExplicit] ++ .GenDecl docBoth specsSecret :: [declPoint] ∧
      (visitorMidway false).AllStructs = false ∧
      (∃ l ∈ (CommentGroup.Text docBoth).toList.splitOn '\n', structComment.toList <+: l) ∧
      (∃ l ∈ (CommentGroup.Text docBoth).toList.splitOn '\n',
        structIgnoreComment.toList <+: l) ∧
      (Walk (visitorMidway false) (.file unitIgnored)).StructNames =
        ["Earlier", "ID", "User", "Secret"] ∧
      (Walk (visitorMidway false) (.file unitIgnored)).StructNames =
        (visitorMidway false).StructNames ++
          sel false (File.mk unitIgnored.Name [.GenDecl docJson specsExplicit]) ++
          typeNames specsSecret ++ sel false (File.mk unitIgnored.Name [declPoint]) :=
  ⟨rfl, rfl, by decide, by decide, by decide,
    (ignore_without_effect_when_not_all (visitorMidway false) unitIgnored
      [.GenDecl docJson specsExplicit] [declPoint] docBoth specsSecret rfl rfl
      (by decide)).1⟩

theorem Visit_StructNames (v : visitor) (n : Node) :
    (Visit v n).1.StructNames = v.StructNames ++ visitAdds v n := by
  unfold Visit visitAdds
  split
  · simp
  · simp
  · dsimp only
    split <;> simp
  · dsimp only
    split <;> simp_all
  · simp
  · rename_i h1 h2 h3 h4 h5
    split
    · exact absurd rfl (h4 _ _)
    · exact absurd rfl (h5 _)
    · simp

theorem Parse_StructNames_prefix (pkgPath : String × Option String)
    (dir : Except String (List Package)) (file : Except String File) (p : Parser)
    (isDir : Bool) : p.StructNames <+: (Parse pkgPath dir file p isDir).1.StructNames := by
  obtain ⟨path, e⟩ := pkgPath
  cases e with
  | some err => exact List.prefix_refl _
  | none =>
    cases isDir with
    | true =>
      cases dir with
      | error err => exact List.prefix_refl _
      | ok pkgs =>
        simp only [Parse, if_true]
        rw [walkPackages_StructNames]
        exact List.prefix_append _ _
    | false =>
      cases file with
      | error err => exact List.prefix_refl _
      | ok f =>
        simp only [Parse, Bool.false_eq_true, if_false]
        rw [walkFile_names]
        exact List.prefix_append _ _

/-- C20: `Visit` only appends to `StructNames`: at every node and in every
visitor state the names before the call are a prefix of the names after it
and the call adds at most one name, exactly one at a type declaration of an
explicit group and at a struct type and none elsewhere. So a `Parser` used
for a second `Parse` keeps the names collected before, in their order, ahead
of the new ones. -/
theorem Visit_append_only (v : visitor) (n : Node) (Name : String) (Typ : Expr)
    (Fields : List Field) (p : Parser) (pkgPath1 pkgPath2 : String × Option String)
    (dir1 dir2 : Except String (List Package)) (file1 file2 : Except String File)
    (isDir1 isDir2 : Bool) :
    (Visit v n).1.StructNames = v.StructNames ++ visitAdds v n ∧
      v.StructNames <+: (Visit v n).1.StructNames ∧
      (visitAdds v n).length ≤ 1 ∧
      (Visit { v with explicit := true } (.spec (.TypeSpec Name Typ))).1.StructNames =
        v.StructNames ++ [Name] ∧
      (Visit v (.expr (.StructType Fields))).1.StructNames = v.StructNames ++ [v.name] ∧
      (Visit { v with explicit := false } (.spec (.TypeSpec Name Typ))).1.StructNames =
        v.StructNames ∧
      p.StructNames <+: (Parse pkgPath1 dir1 file1 p isDir1).1.StructNames ∧
      (Parse pkgPath1 dir1 file1 p isDir1).1.StructNames <+:
        (Parse pkgPath2 dir2 file2 (Parse pkgPath1 dir1 file1 p isDir1).1
          isDir2).1.StructNames ∧
      p.StructNames <+:
        (Parse pkgPath2 dir2 file2 (Parse pkgPath1 dir1 file1 p isDir1).1
          isDir2).1.StructNames := by
  have h1 := Parse_StructNames_prefix pkgPath1 dir1 file1 p isDir1
  have h2 := Parse_StructNames_prefix pkgPath2 dir2 file2
    (Parse pkgPath1 dir1 file1 p isDir1).1 isDir2
  refine ⟨Visit_StructNames v n, ?_, ?_, rfl, rfl, ?_, h1, h2, h1.trans h2⟩
  · rw [Visit_StructNames]
    exact List.prefix_append _ _
  · unfold visitAdds
    split
    · split <;> simp
    · simp
    · simp
  · simp [Visit]

end Easyjson
